import Mathlib

/-!
Verification development for the s4cmb instrument-systematics module
(`s4cmb/systematics.py`).

The numeric arrays of the source are modelled over `ℚ`:
a timestream is a `List ℚ`, the array of all detector timestreams is a
`List (List ℚ)`, and a 2D map is a `List (List ℚ)` (row-major).
A 6-coefficient beam kernel is the structure `Kernel`.

Rotation angles are represented by their cosine/sine pair `(c, s)`;
`np.cos`/`np.sin` never appear in any other role in the source, so a
theorem about an angle `θ` becomes a theorem about `(c, s)` with
`c ^ 2 + s ^ 2 = 1`.

Python in-place mutation of an array is modelled by returning the new
value of the array; a Python exception (`assert` failure, `IndexError`,
broadcasting error) is modelled by an `Option` result of `none`, thrown
before any buffer is written.
-/

namespace S4cmb

/-- The 6-coefficient beam-expansion kernel of `systematics.py`: coefficients
for `(I, dI/dt, dI/dp, d2I/dpdt, d2I/dt2, d2I/d2p)` in source order. -/
structure Kernel where
  d00 : ℚ
  d10 : ℚ
  d01 : ℚ
  d11 : ℚ
  d20 : ℚ
  d02 : ℚ
deriving DecidableEq, Repr

attribute [ext] Kernel

/-- The all-zero kernel. -/
def kzero : Kernel := ⟨0, 0, 0, 0, 0, 0⟩

/-- Componentwise sum of two kernels (numpy elementwise `+` on the
6-vectors). -/
def kadd (a b : Kernel) : Kernel :=
  ⟨a.d00 + b.d00, a.d10 + b.d10, a.d01 + b.d01,
   a.d11 + b.d11, a.d20 + b.d20, a.d02 + b.d02⟩

instance : Add Kernel := ⟨kadd⟩

theorem kadd_def (a b : Kernel) : a + b = kadd a b := rfl

/-- Dot product of two 6-vectors of kernel coefficients. -/
def kdot (a b : Kernel) : ℚ :=
  a.d00 * b.d00 + a.d10 * b.d10 + a.d01 * b.d01 +
    a.d11 * b.d11 + a.d20 * b.d20 + a.d02 * b.d02

/-- Squared euclidean norm of a kernel, seen as a 6-vector. -/
def knormSq (x : Kernel) : ℚ := kdot x x

/-- Elementwise `a + w * b` on two equally long timestreams
(numpy `a += w * b` on 1D arrays). -/
def addScaled (a : List ℚ) (w : ℚ) (b : List ℚ) : List ℚ :=
  List.zipWith (fun x y => x + w * y) a b

/-! ### Crosstalk network (`inject_crosstalk_inside_SQUID`,
`inject_crosstalk_SQUID_to_SQUID`) -/

/-- One step of the `combs` dictionary construction:
`combs.setdefault(sq, []).append(e)` on an insertion-ordered dictionary,
represented as an association list. If the key `sq` is present its list is
extended at the end, otherwise a new key is appended at the end. -/
def addToComb (combs : List (ℕ × List (ℤ × ℕ))) (sq : ℕ) (e : ℤ × ℕ) :
    List (ℕ × List (ℤ × ℕ)) :=
  match combs with
  | [] => [(sq, [e])]
  | (s, l) :: rest =>
      if s = sq then (s, l ++ [e]) :: rest else (s, l) :: addToComb rest sq e

/-- The `combs` dictionary of both crosstalk routines:
`for bolo in range(len(bolo_data)): combs[squid_ids[bolo]].append((bolo_ids[bolo], bolo))`.
`n` is `len(bolo_data)`; SQUID ids are `ℕ`, in-SQUID channel indices `ℤ`. -/
def combsBuild (n : ℕ) (squid_ids : List ℕ) (bolo_ids : List ℤ) :
    List (ℕ × List (ℤ × ℕ)) :=
  (List.range n).foldl
    (fun combs bolo => addToComb combs (squid_ids.getD bolo 0) (bolo_ids.getD bolo 0, bolo))
    []

/-- Body of `inject_crosstalk_inside_SQUID` (python branch) after the
amplitude draw: for every SQUID, for every pair of member channels at
separation `0 < |ch - ch2| <= radius`,
`tsout[i] += cross_amp[i2] / separation_length**beta * tsout[i2]`,
reading and writing the working array `tsout` in iteration order.
The drawn amplitudes are the parameter `cross_amp`. -/
def inject_crosstalk_inside_SQUID (bolo_data : List (List ℚ))
    (squid_ids : List ℕ) (bolo_ids : List ℤ) (cross_amp : List ℚ)
    (radius beta : ℕ) : List (List ℚ) :=
  let combs := combsBuild bolo_data.length squid_ids bolo_ids
  combs.foldl (fun ts g =>
    g.2.foldl (fun ts chi =>
      g.2.foldl (fun ts chi2 =>
        let sep := (chi.1 - chi2.1).natAbs
        if 0 < sep ∧ sep ≤ radius then
          ts.set chi.2 (addScaled (ts.getD chi.2 [])
            (cross_amp.getD chi2.2 0 / (sep : ℚ) ^ beta) (ts.getD chi2.2 []))
        else ts) ts) ts) bolo_data

/-- Body of `inject_crosstalk_SQUID_to_SQUID` after the amplitude draw:
for every bolometer `(ch, i)` and every bolometer `(ch2, i2)` of every
*other* SQUID, `tsout[i] += cross_amp[i2] / squid_attenuation * tsout[i2]`,
reading and writing the working array in iteration order. -/
def inject_crosstalk_SQUID_to_SQUID (bolo_data : List (List ℚ))
    (squid_ids : List ℕ) (bolo_ids : List ℤ) (cross_amp : List ℚ)
    (squid_attenuation : ℚ) : List (List ℚ) :=
  let combs := combsBuild bolo_data.length squid_ids bolo_ids
  combs.foldl (fun ts g1 =>
    g1.2.foldl (fun ts chi =>
      combs.foldl (fun ts g2 =>
        if g2.1 = g1.1 then ts
        else
          g2.2.foldl (fun ts chi2 =>
            ts.set chi.2 (addScaled (ts.getD chi.2 [])
              (cross_amp.getD chi2.2 0 / squid_attenuation) (ts.getD chi2.2 []))) ts)
        ts) ts) bolo_data

/-- The amplitude draw of `inject_crosstalk_inside_SQUID`:
`state = np.random.RandomState(seed); cross_amp = state.normal(mu/100., sigma/100., len(bolo_data))`.
The numpy generator is an external deterministic sampler; it is modelled by
an explicit function `normalFn` of the seed, the two distribution
parameters and the number of draws. -/
def crossAmpInsideSQUID (normalFn : ℕ → ℚ → ℚ → ℕ → List ℚ)
    (seed : ℕ) (mu sigma : ℚ) (n : ℕ) : List ℚ :=
  normalFn seed (mu / 100) (sigma / 100) n

/-- The amplitude draw of `inject_crosstalk_SQUID_to_SQUID`, written
identically in the source:
`state = np.random.RandomState(seed); cross_amp = state.normal(mu/100., sigma/100., len(bolo_data))`. -/
def crossAmpSQUIDtoSQUID (normalFn : ℕ → ℚ → ℚ → ℕ → List ℚ)
    (seed : ℕ) (mu sigma : ℚ) (n : ℕ) : List ℚ :=
  normalFn seed (mu / 100) (sigma / 100) n

/-- Full `inject_crosstalk_inside_SQUID` including its seeded amplitude
draw. -/
def inject_crosstalk_inside_SQUID_seeded (normalFn : ℕ → ℚ → ℚ → ℕ → List ℚ)
    (bolo_data : List (List ℚ)) (squid_ids : List ℕ) (bolo_ids : List ℤ)
    (mu sigma : ℚ) (radius beta : ℕ) (seed : ℕ) : List (List ℚ) :=
  inject_crosstalk_inside_SQUID bolo_data squid_ids bolo_ids
    (crossAmpInsideSQUID normalFn seed mu sigma bolo_data.length) radius beta

/-- Full `inject_crosstalk_SQUID_to_SQUID` including its seeded amplitude
draw. -/
def inject_crosstalk_SQUID_to_SQUID_seeded (normalFn : ℕ → ℚ → ℚ → ℕ → List ℚ)
    (bolo_data : List (List ℚ)) (squid_ids : List ℕ) (bolo_ids : List ℤ)
    (mu sigma squid_attenuation : ℚ) (seed : ℕ) : List (List ℚ) :=
  inject_crosstalk_SQUID_to_SQUID bolo_data squid_ids bolo_ids
    (crossAmpSQUIDtoSQUID normalFn seed mu sigma bolo_data.length) squid_attenuation

/-- Execution wrapper of `inject_crosstalk_inside_SQUID` recording the only
failure Python can produce on a length mismatch: the function performs no
validation, but when an id list is shorter than `bolo_data` the grouping
loop raises `IndexError` at `squid_ids[bolo]` / `bolo_ids[bolo]` before any
timestream is written (`none`). Id lists longer than `bolo_data` are
silently accepted. -/
def inject_crosstalk_inside_SQUID_run (bolo_data : List (List ℚ))
    (squid_ids : List ℕ) (bolo_ids : List ℤ) (cross_amp : List ℚ)
    (radius beta : ℕ) : Option (List (List ℚ)) :=
  if bolo_data.length ≤ squid_ids.length ∧ bolo_data.length ≤ bolo_ids.length then
    some (inject_crosstalk_inside_SQUID bolo_data squid_ids bolo_ids cross_amp radius beta)
  else none

/-! Reference forms used to state the snapshot/cascade claims about the
crosstalk loops. An update `(i, i2, w)` means
`timestream[i] += w * timestream[i2]`. -/

/-- The update generated by one inner-loop step of
`inject_crosstalk_inside_SQUID`, if its separation guard passes. -/
def pairUpd (cross_amp : List ℚ) (radius beta : ℕ) (chi chi2 : ℤ × ℕ) :
    Option (ℕ × ℕ × ℚ) :=
  let sep := (chi.1 - chi2.1).natAbs
  if 0 < sep ∧ sep ≤ radius then
    some (chi.2, chi2.2, cross_amp.getD chi2.2 0 / (sep : ℚ) ^ beta)
  else none

/-- The full sequence of updates performed by
`inject_crosstalk_inside_SQUID`, in iteration order. -/
def intraUpds (combs : List (ℕ × List (ℤ × ℕ))) (cross_amp : List ℚ)
    (radius beta : ℕ) : List (ℕ × ℕ × ℚ) :=
  combs.flatMap (fun g =>
    g.2.flatMap (fun chi => g.2.filterMap (fun chi2 => pairUpd cross_amp radius beta chi chi2)))

/-- The full sequence of updates performed by
`inject_crosstalk_SQUID_to_SQUID`, in iteration order. -/
def interUpds (combs : List (ℕ × List (ℤ × ℕ))) (cross_amp : List ℚ)
    (squid_attenuation : ℚ) : List (ℕ × ℕ × ℚ) :=
  combs.flatMap (fun g1 =>
    g1.2.flatMap (fun chi =>
      combs.flatMap (fun g2 =>
        if g2.1 = g1.1 then []
        else g2.2.map (fun chi2 => (chi.2, chi2.2, cross_amp.getD chi2.2 0 / squid_attenuation)))))

/-- Apply one update to the working array of timestreams:
`ts[i] += w * ts[i2]`, reading the *current* working values. -/
def applyUpd (ts : List (List ℚ)) (u : ℕ × ℕ × ℚ) : List (List ℚ) :=
  ts.set u.1 (addScaled (ts.getD u.1 []) u.2.2 (ts.getD u.2.1 []))

/-- Apply one update reading the coupled signal from the immutable snapshot
`data` instead of the working array. -/
def applySnapUpd (data : List (List ℚ)) (ts : List (List ℚ)) (u : ℕ × ℕ × ℚ) :
    List (List ℚ) :=
  ts.set u.1 (addScaled (ts.getD u.1 []) u.2.2 (data.getD u.2.1 []))

/-- Sequential (cascading) semantics of a list of updates, on timestreams
presented as a function from detector index: each update reads the current
working signals. -/
def stepFun (st : ℕ → List ℚ) (u : ℕ × ℕ × ℚ) : ℕ → List ℚ :=
  fun j => if j = u.1 then addScaled (st u.1) u.2.2 (st u.2.1) else st j

/-- Final timestream of detector `i` after applying all updates
sequentially, each one reading the current (possibly already modified)
working signals. -/
def cascadeOut (data : List (List ℚ)) (upds : List (ℕ × ℕ × ℚ)) (i : ℕ) : List ℚ :=
  (upds.foldl stepFun (fun j => data.getD j [])) i

/-- Modelled from the spec: the contract of §4.1, "each detector's signal is
the sum of its original signal and a weighted sum of neighboring detectors'
*original* signals (all couplings are computed from the same pre-mutation
snapshot, not cascaded)", for the intra-SQUID coupling model. -/
def snapshot_inside_SQUID (bolo_data : List (List ℚ)) (squid_ids : List ℕ)
    (bolo_ids : List ℤ) (cross_amp : List ℚ) (radius beta : ℕ) : List (List ℚ) :=
  (intraUpds (combsBuild bolo_data.length squid_ids bolo_ids) cross_amp radius beta).foldl
    (applySnapUpd bolo_data) bolo_data

/-- Modelled from the spec: the same pre-mutation-snapshot contract for the
SQUID-to-SQUID coupling model. -/
def snapshot_SQUID_to_SQUID (bolo_data : List (List ℚ)) (squid_ids : List ℕ)
    (bolo_ids : List ℤ) (cross_amp : List ℚ) (squid_attenuation : ℚ) : List (List ℚ) :=
  (interUpds (combsBuild bolo_data.length squid_ids bolo_ids) cross_amp squid_attenuation).foldl
    (applySnapUpd bolo_data) bolo_data

/-! Auxiliary description of the `combs` dictionary used in proofs. -/

/-! ### Derivative operator and kernel fitter (`xderiv`, `yderiv`,
`derivs`, `split_deriv`) -/

/-- Value of a 2D map at integer coordinates, `0` outside the map; this is
the zero fill of `signal.convolve2d(..., mode='same')`. -/
def valAt (m : List (List ℚ)) (i j : ℤ) : ℚ :=
  if 0 ≤ i ∧ 0 ≤ j then (m.getD i.toNat []).getD j.toNat 0 else 0

/-- Number of columns of a (rectangular) 2D map. -/
def ncols (m : List (List ℚ)) : ℕ := (m.getD 0 []).length

/-- Derivative of a 2D map with respect to the x coordinate:
`-convolve2d(m, [[1, 0, -1]] / (2 * pix_size), mode='same')`, which at pixel
`(i, j)` is `(m[i][j-1] - m[i][j+1]) / (2 * pix_size)` with zero fill at the
edges. -/
def xderiv (m : List (List ℚ)) (pix_size : ℚ) : List (List ℚ) :=
  (List.range m.length).map (fun i =>
    (List.range (ncols m)).map (fun j =>
      (valAt m i ((j : ℤ) - 1) - valAt m i ((j : ℤ) + 1)) / (2 * pix_size)))

/-- Derivative of a 2D map with respect to the y coordinate: the transposed
kernel of `xderiv`, giving `(m[i-1][j] - m[i+1][j]) / (2 * pix_size)`. -/
def yderiv (m : List (List ℚ)) (pix_size : ℚ) : List (List ℚ) :=
  (List.range m.length).map (fun i =>
    (List.range (ncols m)).map (fun j =>
      (valAt m ((i : ℤ) - 1) j - valAt m ((i : ℤ) + 1) j) / (2 * pix_size)))

/-- Design matrix of `split_deriv`: `A = derivs(sumbeam).reshape((6, npix)).T`.
Row of pixel `(i, j)` (row-major) holds the six derivative maps
`(m00, m10, m01, m11, m20, m02)` of `derivs` evaluated at that pixel. -/
def designMatrix (m : List (List ℚ)) (pix_size : ℚ) : List Kernel :=
  let m00 := m
  let m10 := xderiv m pix_size
  let m01 := yderiv m pix_size
  let m11 := yderiv m10 pix_size
  let m20 := xderiv m10 pix_size
  let m02 := yderiv m01 pix_size
  (List.range m.length).flatMap (fun i =>
    (List.range (ncols m)).map (fun j =>
      ⟨valAt m00 i j, valAt m10 i j, valAt m01 i j,
       valAt m11 i j, valAt m20 i j, valAt m02 i j⟩))

/-- Target vector of `split_deriv`: the row-major flattening
`b = diffbeam.reshape(npix)`. -/
def targetVec (diffbeam : List (List ℚ)) : List ℚ := diffbeam.flatten

/-- Sum of squared residuals `‖A  x - b‖²` of a candidate coefficient
vector `x` for the least-squares system of `split_deriv`. -/
def residSq (A : List Kernel) (b : List ℚ) (x : Kernel) : ℚ :=
  ((A.zip b).map (fun rb => (kdot rb.1 x - rb.2) ^ 2)).sum

/-- A least-squares minimizer of `A x ≈ b`. -/
def IsMinimizer (A : List Kernel) (b : List ℚ) (x : Kernel) : Prop :=
  ∀ y : Kernel, residSq A b x ≤ residSq A b y

/-- Return relation of `split_deriv sumbeam diffbeam pix_size`: the source
delegates the solve to `np.linalg.lstsq(A, b, rcond=-1)`, an external
numerically-robust solver whose contract is to return a least-squares
solution of minimal euclidean norm. `split_deriv` returns `x` exactly when
`x` satisfies that contract for the design matrix of the sum beam and the
flattened difference beam. -/
def SplitDerivReturns (sumbeam diffbeam : List (List ℚ)) (pix_size : ℚ)
    (x : Kernel) : Prop :=
  IsMinimizer (designMatrix sumbeam pix_size) (targetVec diffbeam) x ∧
    ∀ y : Kernel, IsMinimizer (designMatrix sumbeam pix_size) (targetVec diffbeam) y →
      knormSq x ≤ knormSq y

/-! ### Spin selector and kernel rotator (`fixspin`, `rotate_deriv`) -/

/-- Spin selection of `fixspin(K, spin)`. The spin string is a list of
characters; each selected spin contributes its block, second derivatives
being recomposed from `x = (d20 + d02) * 0.5` and `y = (d20 - d02) * 0.5`. -/
def fixspin (K : Kernel) (spin : List Char) : Kernel :=
  let x := (K.d20 + K.d02) * (1 / 2 : ℚ)
  let y := (K.d20 - K.d02) * (1 / 2 : ℚ)
  { d00 := if spin.contains '0' then K.d00 else 0
    d10 := if spin.contains '1' then K.d10 else 0
    d01 := if spin.contains '1' then K.d01 else 0
    d11 := if spin.contains '2' then K.d11 else 0
    d20 := (if spin.contains '0' then x else 0) + (if spin.contains '2' then y else 0)
    d02 := (if spin.contains '0' then x else 0) + (if spin.contains '2' then -y else 0) }

/-- Rotation of a kernel by an angle `θ` with `c = cos θ`, `s = sin θ`,
exactly the unrolled tensor formulas of `rotate_deriv`. -/
def rotate_deriv (K : Kernel) (c s : ℚ) : Kernel where
  d00 := K.d00
  d10 := c * K.d10 - s * K.d01
  d01 := s * K.d10 + c * K.d01
  d11 := (c * c - s * s) * K.d11 + c * s * (K.d20 - K.d02)
  d20 := c * c * K.d20 - 2 * c * s * K.d11 + s * s * K.d02
  d02 := s * s * K.d20 + 2 * c * s * K.d11 + c * c * K.d02

/-! ### Leakage projector (`diffbeam_map2tod`, `waferts_add_diffbeam`).
The intensity-derivative stack is `Fin 6 → List ℚ` (six pixelized maps in
kernel-coefficient order); a pointing row is a `List ℤ` of pixel indices
with sentinel `-1`; an orientation row is a `List (ℚ × ℚ)` of per-sample
`(cos θ, sin θ)` pairs. -/

/-- The six intensity-derivative values at pixel `p`,
`intensity_derivatives[:, io]`, bundled in kernel-coefficient order. -/
def stackAt (ints : Fin 6 → List ℚ) (p : ℤ) : Kernel :=
  ⟨(ints 0).getD p.toNat 0, (ints 1).getD p.toNat 0, (ints 2).getD p.toNat 0,
   (ints 3).getD p.toNat 0, (ints 4).getD p.toNat 0, (ints 5).getD p.toNat 0⟩

/-- One output row of `diffbeam_map2tod`: sample-by-sample, a valid pixel
index `p ≠ -1` accumulates
`sum_coeff intensity_derivatives[coeff, p] * rotate_deriv(K, -θ)[coeff]`
into the output sample; the sentinel leaves the sample untouched. Rotation
by `-θ` turns the `(c, s)` pair into `(c, -s)`. -/
def scanRow (ints : Fin 6 → List ℚ) (K : Kernel) :
    List ℚ → List ℤ → List (ℚ × ℚ) → List ℚ
  | o :: os, p :: ps, a :: angs =>
      (if p = -1 then o else o + kdot (rotate_deriv K a.1 (-a.2)) (stackAt ints p)) ::
        scanRow ints K os ps angs
  | os, _, _ => os

/-- The per-pair loop of `diffbeam_map2tod` over the rows of the output
buffer, the pointing matrix, the orientation array and the kernel list. -/
def scanRows (ints : Fin 6 → List ℚ) :
    List (List ℚ) → List (List ℤ) → List (List (ℚ × ℚ)) → List Kernel → List (List ℚ)
  | o :: os, p :: ps, a :: angs, k :: ks =>
      scanRow ints k o p a :: scanRows ints os ps angs ks
  | os, _, _, _ => os

/-- The `diffbeam_map2tod` routine: its `assert` preconditions
(`point_matrix.shape == out.shape`, `diffbeam_kernels.shape[0] == npix`,
`beam_orientation.shape == (npix, nt)`; the kernel width 6 holds by type)
fail fast with `none` before any computation, otherwise the output buffer
with the accumulated leakage is returned. -/
def diffbeam_map2tod (out : List (List ℚ)) (ints : Fin 6 → List ℚ)
    (point_matrix : List (List ℤ)) (beam_orientation : List (List (ℚ × ℚ)))
    (diffbeam_kernels : List Kernel) : Option (List (List ℚ)) :=
  if point_matrix.map List.length = out.map List.length ∧
      diffbeam_kernels.length = out.length ∧
      beam_orientation.map List.length = out.map List.length then
    some (scanRows ints out point_matrix beam_orientation diffbeam_kernels)
  else none

/-- The final fan-out of `waferts_add_diffbeam`:
`waferts[::2] += diffbeamleak; waferts[1::2] -= diffbeamleak` — each leakage
row is added to the even member and subtracted from the odd member of its
pair. -/
def interleaveAddSub : List (List ℚ) → List (List ℚ) → List (List ℚ)
  | a :: b :: rest, l :: ls =>
      addScaled a 1 l :: addScaled b (-1) l :: interleaveAddSub rest ls
  | ws, _ => ws

/-- The `waferts_add_diffbeam` routine: copies the kernels, zeroes the
temperature term and flips the sign of the two `dtheta` terms, applies
`fixspin`, accumulates the per-pair leakage into a zero buffer of shape
`(len(waferts) // 2, len(waferts[0]))` via `diffbeam_map2tod`, then adds it
to the even rows and subtracts it from the odd rows. A failed assert inside
`diffbeam_map2tod`, or the broadcasting error raised by `waferts[::2] +=`
when `waferts` has an odd number of rows, aborts with `none` before
`waferts` is written. -/
def waferts_add_diffbeam (waferts : List (List ℚ))
    (point_matrix : List (List ℤ)) (beam_orientation : List (List (ℚ × ℚ)))
    (ints : Fin 6 → List ℚ) (diffbeam_kernels : List Kernel)
    (spins : List Char) : Option (List (List ℚ)) :=
  let K := diffbeam_kernels.map (fun k =>
    fixspin ⟨0, -k.d10, k.d01, -k.d11, k.d20, k.d02⟩ spins)
  let npair := waferts.length / 2
  let nt := (waferts.getD 0 []).length
  let leakInit := List.replicate npair (List.replicate nt (0 : ℚ))
  (diffbeam_map2tod leakInit ints point_matrix beam_orientation K).bind
    (fun leak => if 2 ∣ waferts.length then some (interleaveAddSub waferts leak) else none)

/-- Append a key if it is not present yet (key order of the dictionary). -/
def addKey (ks : List ℕ) (s : ℕ) : List ℕ := if s ∈ ks then ks else ks ++ [s]

/-- Keys of the `combs` dictionary after processing bolometers `0..n-1`, in
insertion order. -/
def keysUpto (squid_ids : List ℕ) (n : ℕ) : List ℕ :=
  (List.range n).foldl (fun ks j => addKey ks (squid_ids.getD j 0)) []

/-- The member list of SQUID `s` in the `combs` dictionary: all
`(bolo_ids[j], j)` with `j < n` and `squid_ids[j] = s`, in bolometer
order. -/
def groupFor (n : ℕ) (squid_ids : List ℕ) (bolo_ids : List ℤ) (s : ℕ) :
    List (ℤ × ℕ) :=
  ((List.range n).filter (fun j => squid_ids.getD j 0 = s)).map
    (fun j => (bolo_ids.getD j 0, j))

/-! ### General fold lemmas -/

theorem foldl_flatMap {α β γ : Type} (f : β → α → β) (g : γ → List α) (l : List γ) (b : β) :
    (l.flatMap g).foldl f b = l.foldl (fun s c => (g c).foldl f s) b := by
  induction l generalizing b with
  | nil => rfl
  | cons a t ih => simp [List.foldl_append, ih]

theorem foldl_filterMap {α β γ : Type} (f : β → α → β) (g : γ → Option α) (l : List γ) (b : β) :
    (l.filterMap g).foldl f b =
      l.foldl (fun s c => match g c with | some a => f s a | none => s) b := by
  induction l generalizing b with
  | nil => rfl
  | cons a t ih =>
    rw [List.filterMap_cons]
    cases h : g a <;> simp [h, ih]

theorem foldl_self {α β : Type} (l : List α) (b : β) : l.foldl (fun s _ => s) b = b := by
  induction l <;> simp_all

/-! ### The crosstalk loops as flat update sequences -/

theorem inject_intra_eq_foldl (bolo_data : List (List ℚ)) (squid_ids : List ℕ)
    (bolo_ids : List ℤ) (cross_amp : List ℚ) (radius beta : ℕ) :
    inject_crosstalk_inside_SQUID bolo_data squid_ids bolo_ids cross_amp radius beta
      = (intraUpds (combsBuild bolo_data.length squid_ids bolo_ids) cross_amp radius beta).foldl
          applyUpd bolo_data := by
  unfold inject_crosstalk_inside_SQUID intraUpds
  rw [foldl_flatMap]
  refine List.foldl_ext _ _ _ (fun ts g hg => ?_)
  rw [foldl_flatMap]
  refine List.foldl_ext _ _ _ (fun ts chi hchi => ?_)
  rw [foldl_filterMap]
  refine List.foldl_ext _ _ _ (fun ts chi2 hchi2 => ?_)
  unfold pairUpd applyUpd
  by_cases hc : 0 < (chi.1 - chi2.1).natAbs ∧ (chi.1 - chi2.1).natAbs ≤ radius
  · rw [if_pos hc, if_pos hc]
  · rw [if_neg hc, if_neg hc]

theorem inject_inter_eq_foldl (bolo_data : List (List ℚ)) (squid_ids : List ℕ)
    (bolo_ids : List ℤ) (cross_amp : List ℚ) (squid_attenuation : ℚ) :
    inject_crosstalk_SQUID_to_SQUID bolo_data squid_ids bolo_ids cross_amp squid_attenuation
      = (interUpds (combsBuild bolo_data.length squid_ids bolo_ids) cross_amp
          squid_attenuation).foldl applyUpd bolo_data := by
  unfold inject_crosstalk_SQUID_to_SQUID interUpds
  rw [foldl_flatMap]
  refine List.foldl_ext _ _ _ (fun ts g1 hg1 => ?_)
  rw [foldl_flatMap]
  refine List.foldl_ext _ _ _ (fun ts chi hchi => ?_)
  rw [foldl_flatMap]
  refine List.foldl_ext _ _ _ (fun ts g2 hg2 => ?_)
  by_cases hc : g2.1 = g1.1
  · simp [hc]
  · rw [if_neg hc, if_neg hc, List.foldl_map]
    rfl

/-! ### List-with-set versus function-update semantics -/

theorem getD_set_of_ne {α : Type} (l : List α) (i j : ℕ) (v : α) (d : α) (h : j ≠ i) :
    (l.set i v).getD j d = l.getD j d := by
  rcases lt_or_ge j l.length with hj | hj
  · rw [List.getD_eq_getElem _ _ (by simpa using hj), List.getD_eq_getElem _ _ hj]
    exact List.getElem_set_ne (fun he => h he.symm) _
  · rw [List.getD_eq_default _ _ (by simpa using hj), List.getD_eq_default _ _ hj]

theorem getD_set_self {α : Type} (l : List α) (i : ℕ) (v : α) (d : α) (h : i < l.length) :
    (l.set i v).getD i d = v := by
  rw [List.getD_eq_getElem _ _ (by simpa using h)]
  exact List.getElem_set_self _

theorem foldl_applyUpd_getD (upds : List (ℕ × ℕ × ℚ)) (ts : List (List ℚ))
    (hb : ∀ u ∈ upds, u.1 < ts.length) (i : ℕ) :
    (upds.foldl applyUpd ts).getD i [] = (upds.foldl stepFun (fun j => ts.getD j [])) i := by
  induction upds generalizing ts with
  | nil => rfl
  | cons u rest ih =>
    have hu : u.1 < ts.length := hb u (List.mem_cons_self u rest)
    have hstep : (fun j => (applyUpd ts u).getD j []) = stepFun (fun j => ts.getD j []) u := by
      funext j
      unfold applyUpd stepFun
      by_cases hj : j = u.1
      · subst hj
        simp only [if_pos rfl]
        exact getD_set_self _ _ _ _ hu
      · rw [if_neg hj]
        exact getD_set_of_ne _ _ _ _ _ hj
    have hlen : (applyUpd ts u).length = ts.length := List.length_set _ _ _
    rw [List.foldl_cons, List.foldl_cons,
      ih (applyUpd ts u) (fun v hv => by rw [hlen]; exact hb v (List.mem_cons_of_mem u hv)),
      hstep]

theorem foldl_stepFun_of_ne (upds : List (ℕ × ℕ × ℚ)) (st : ℕ → List ℚ) (i : ℕ)
    (h : ∀ u ∈ upds, u.1 ≠ i) : (upds.foldl stepFun st) i = st i := by
  induction upds generalizing st with
  | nil => rfl
  | cons u rest ih =>
    rw [List.foldl_cons, ih _ (fun v hv => h v (List.mem_cons_of_mem u hv))]
    unfold stepFun
    rw [if_neg (fun he => h u (List.mem_cons_self u rest) he.symm)]

/-! ### Characterisation of the `combs` dictionary -/

theorem combsBuild_succ (n : ℕ) (squid_ids : List ℕ) (bolo_ids : List ℤ) :
    combsBuild (n + 1) squid_ids bolo_ids
      = addToComb (combsBuild n squid_ids bolo_ids) (squid_ids.getD n 0)
          (bolo_ids.getD n 0, n) := by
  unfold combsBuild
  rw [List.range_succ, List.foldl_append]
  rfl

theorem keysUpto_succ (squid_ids : List ℕ) (n : ℕ) :
    keysUpto squid_ids (n + 1) = addKey (keysUpto squid_ids n) (squid_ids.getD n 0) := by
  unfold keysUpto
  rw [List.range_succ, List.foldl_append]
  rfl

theorem groupFor_succ (n : ℕ) (squid_ids : List ℕ) (bolo_ids : List ℤ) (s : ℕ) :
    groupFor (n + 1) squid_ids bolo_ids s
      = groupFor n squid_ids bolo_ids s
          ++ (if squid_ids.getD n 0 = s then [(bolo_ids.getD n 0, n)] else []) := by
  unfold groupFor
  rw [List.range_succ, List.filter_append, List.map_append]
  congr 1
  simp only [List.filter_cons, List.filter_nil]
  split <;> split <;> simp_all

theorem mem_addKey (ks : List ℕ) (s t : ℕ) : t ∈ addKey ks s ↔ t ∈ ks ∨ t = s := by
  unfold addKey
  by_cases h : s ∈ ks
  · rw [if_pos h]
    exact ⟨fun ht => Or.inl ht, fun ht => ht.elim id (fun he => he ▸ h)⟩
  · rw [if_neg h]
    simp

theorem addKey_nodup (ks : List ℕ) (s : ℕ) (h : ks.Nodup) : (addKey ks s).Nodup := by
  unfold addKey
  by_cases hs : s ∈ ks
  · rwa [if_pos hs]
  · rw [if_neg hs]
    simp [List.nodup_append, h, hs]

theorem keysUpto_nodup (squid_ids : List ℕ) (n : ℕ) : (keysUpto squid_ids n).Nodup := by
  induction n with
  | zero => exact List.nodup_nil
  | succ m ih => rw [keysUpto_succ]; exact addKey_nodup _ _ ih

theorem mem_keysUpto (squid_ids : List ℕ) (n j : ℕ) (h : j < n) :
    squid_ids.getD j 0 ∈ keysUpto squid_ids n := by
  induction n with
  | zero => omega
  | succ m ih =>
    rw [keysUpto_succ, mem_addKey]
    rcases Nat.lt_succ_iff_lt_or_eq.mp h with hm | hm
    · exact Or.inl (ih hm)
    · subst hm; exact Or.inr rfl

theorem groupFor_eq_nil (n : ℕ) (squid_ids : List ℕ) (bolo_ids : List ℤ) (s : ℕ)
    (h : s ∉ keysUpto squid_ids n) : groupFor n squid_ids bolo_ids s = [] := by
  unfold groupFor
  rw [List.filter_eq_nil_iff.mpr, List.map_nil]
  intro j hj hjs
  have hjs' : squid_ids.getD j 0 = s := by simpa using hjs
  exact h (hjs' ▸ mem_keysUpto squid_ids n j (List.mem_range.mp hj))

theorem addToComb_map_keys (G : ℕ → List (ℤ × ℕ)) (ks : List ℕ) (sq : ℕ) (e : ℤ × ℕ)
    (hnd : ks.Nodup) (hem : sq ∉ ks → G sq = []) :
    addToComb (ks.map (fun s => (s, G s))) sq e
      = (addKey ks sq).map (fun s => (s, if s = sq then G s ++ [e] else G s)) := by
  induction ks with
  | nil =>
    unfold addToComb addKey
    simp [hem (by simp)]
  | cons k ks ih =>
    by_cases hk : k = sq
    · subst hk
      have hkn : k ∉ ks := (List.nodup_cons.mp hnd).1
      rw [List.map_cons]
      show (if k = k then (k, G k ++ [e]) :: ks.map (fun s => (s, G s)) else
        (k, G k) :: addToComb (ks.map (fun s => (s, G s))) k e) = _
      rw [if_pos rfl]
      unfold addKey
      rw [if_pos (List.mem_cons_self k ks), List.map_cons, if_pos rfl]
      congr 1
      exact List.map_congr_left (fun s hs => by
        rw [if_neg (fun (he : s = k) => hkn (he ▸ hs))])
    · have hem' : sq ∉ ks → G sq = [] := fun hs => hem (fun hmem => by
        rcases List.mem_cons.mp hmem with he | hm
        · exact hk he.symm
        · exact hs hm)
      have hstep : addToComb ((k :: ks).map (fun s => (s, G s))) sq e
          = (k, G k) :: addToComb (ks.map (fun s => (s, G s))) sq e := by
        rw [List.map_cons]
        show (if k = sq then _ else _) = _
        rw [if_neg hk]
      rw [hstep, ih (List.nodup_cons.mp hnd).2 hem']
      have haddk : addKey (k :: ks) sq = k :: addKey ks sq := by
        unfold addKey
        by_cases hks : sq ∈ ks
        · rw [if_pos (List.mem_cons_of_mem k hks), if_pos hks]
        · rw [if_neg (fun hmem => by
            rcases List.mem_cons.mp hmem with he | hm
            · exact hk he.symm
            · exact hks hm), if_neg hks]
          rfl
      rw [haddk, List.map_cons, if_neg hk]

theorem combsBuild_eq (squid_ids : List ℕ) (bolo_ids : List ℤ) (n : ℕ) :
    combsBuild n squid_ids bolo_ids
      = (keysUpto squid_ids n).map (fun s => (s, groupFor n squid_ids bolo_ids s)) := by
  induction n with
  | zero => rfl
  | succ m ih =>
    rw [combsBuild_succ, ih,
      addToComb_map_keys (groupFor m squid_ids bolo_ids) _ _ _
        (keysUpto_nodup squid_ids m) (groupFor_eq_nil m squid_ids bolo_ids _),
      keysUpto_succ]
    refine List.map_congr_left (fun s _ => ?_)
    rw [groupFor_succ]
    by_cases hs : s = squid_ids.getD m 0
    · rw [if_pos hs, if_pos hs.symm]
    · rw [if_neg hs, if_neg (fun he => hs he.symm), List.append_nil]

theorem combsBuild_group (n : ℕ) (squid_ids : List ℕ) (bolo_ids : List ℤ)
    (g : ℕ × List (ℤ × ℕ)) (hg : g ∈ combsBuild n squid_ids bolo_ids) :
    g.2 = groupFor n squid_ids bolo_ids g.1 := by
  rw [combsBuild_eq] at hg
  obtain ⟨s, _, hse⟩ := List.mem_map.mp hg
  rw [← hse]

theorem combsBuild_entry (n : ℕ) (squid_ids : List ℕ) (bolo_ids : List ℤ)
    (g : ℕ × List (ℤ × ℕ)) (hg : g ∈ combsBuild n squid_ids bolo_ids)
    (chi : ℤ × ℕ) (hc : chi ∈ g.2) :
    chi.2 < n ∧ squid_ids.getD chi.2 0 = g.1 ∧ chi = (bolo_ids.getD chi.2 0, chi.2) := by
  rw [combsBuild_group n squid_ids bolo_ids g hg] at hc
  unfold groupFor at hc
  obtain ⟨j, hj, hje⟩ := List.mem_map.mp hc
  have hjr := List.mem_filter.mp hj
  refine ⟨?_, ?_, ?_⟩
  · rw [← hje]; exact List.mem_range.mp hjr.1
  · rw [← hje]; simpa using hjr.2
  · rw [← hje]

theorem interUpds_single (g : ℕ × List (ℤ × ℕ)) (cross_amp : List ℚ) (att : ℚ) :
    interUpds [g] cross_amp att = [] := by
  unfold interUpds
  simp

theorem keysUpto_const (squid_ids : List ℕ) (sq0 : ℕ) (n : ℕ)
    (h : ∀ b < n, squid_ids.getD b 0 = sq0) :
    keysUpto squid_ids n = [] ∨ keysUpto squid_ids n = [sq0] := by
  induction n with
  | zero => exact Or.inl rfl
  | succ m ih =>
    rw [keysUpto_succ, h m (Nat.lt_succ_self m)]
    rcases ih (fun b hb => h b (Nat.lt_succ_of_lt hb)) with hk | hk <;> rw [hk]
    · exact Or.inr (by unfold addKey; rw [if_neg (List.not_mem_nil sq0)]; rfl)
    · exact Or.inr (by unfold addKey; rw [if_pos (List.mem_cons_self sq0 [])])

theorem intraUpds_mem (combs : List (ℕ × List (ℤ × ℕ))) (cross_amp : List ℚ)
    (radius beta : ℕ) (u : ℕ × ℕ × ℚ)
    (hu : u ∈ intraUpds combs cross_amp radius beta) :
    ∃ g ∈ combs, ∃ chi ∈ g.2, ∃ chi2 ∈ g.2,
      u.1 = chi.2 ∧ u.2.1 = chi2.2 ∧ 0 < (chi.1 - chi2.1).natAbs := by
  unfold intraUpds at hu
  obtain ⟨g, hg, hu2⟩ := List.mem_flatMap.mp hu
  obtain ⟨chi, hchi, hu3⟩ := List.mem_flatMap.mp hu2
  obtain ⟨chi2, hchi2, hp⟩ := List.mem_filterMap.mp hu3
  unfold pairUpd at hp
  by_cases hc : 0 < (chi.1 - chi2.1).natAbs ∧ (chi.1 - chi2.1).natAbs ≤ radius
  · rw [if_pos hc] at hp
    exact ⟨g, hg, chi, hchi, chi2, hchi2, by rw [← Option.some_inj.mp hp], by
      rw [← Option.some_inj.mp hp], hc.1⟩
  · rw [if_neg hc] at hp
    exact absurd hp (Option.noConfusion)

theorem interUpds_mem (combs : List (ℕ × List (ℤ × ℕ))) (cross_amp : List ℚ)
    (squid_attenuation : ℚ) (u : ℕ × ℕ × ℚ)
    (hu : u ∈ interUpds combs cross_amp squid_attenuation) :
    ∃ g1 ∈ combs, ∃ chi ∈ g1.2, u.1 = chi.2 := by
  unfold interUpds at hu
  obtain ⟨g1, hg1, hu2⟩ := List.mem_flatMap.mp hu
  obtain ⟨chi, hchi, hu3⟩ := List.mem_flatMap.mp hu2
  obtain ⟨g2, _, hu4⟩ := List.mem_flatMap.mp hu3
  refine ⟨g1, hg1, chi, hchi, ?_⟩
  by_cases hc : g2.1 = g1.1
  · rw [if_pos hc] at hu4
    exact absurd hu4 (List.not_mem_nil u)
  · rw [if_neg hc] at hu4
    obtain ⟨chi2, _, he⟩ := List.mem_map.mp hu4
    rw [← he]

theorem intraUpds_target_lt (n : ℕ) (squid_ids : List ℕ) (bolo_ids : List ℤ)
    (cross_amp : List ℚ) (radius beta : ℕ) (u : ℕ × ℕ × ℚ)
    (hu : u ∈ intraUpds (combsBuild n squid_ids bolo_ids) cross_amp radius beta) :
    u.1 < n := by
  obtain ⟨g, hg, chi, hchi, _, _, he, _⟩ := intraUpds_mem _ _ _ _ _ hu
  rw [he]
  exact (combsBuild_entry n squid_ids bolo_ids g hg chi hchi).1

theorem interUpds_target_lt (n : ℕ) (squid_ids : List ℕ) (bolo_ids : List ℤ)
    (cross_amp : List ℚ) (squid_attenuation : ℚ) (u : ℕ × ℕ × ℚ)
    (hu : u ∈ interUpds (combsBuild n squid_ids bolo_ids) cross_amp squid_attenuation) :
    u.1 < n := by
  obtain ⟨g, hg, chi, hchi, he⟩ := interUpds_mem _ _ _ _ hu
  rw [he]
  exact (combsBuild_entry n squid_ids bolo_ids g hg chi hchi).1

theorem intraUpds_radius_zero (combs : List (ℕ × List (ℤ × ℕ))) (cross_amp : List ℚ)
    (beta : ℕ) : intraUpds combs cross_amp 0 beta = [] := by
  unfold intraUpds
  have hnone : ∀ chi chi2 : ℤ × ℕ, pairUpd cross_amp 0 beta chi chi2 = none := by
    intro chi chi2
    unfold pairUpd
    rw [if_neg (by omega)]
  simp [hnone]

theorem intraUpds_target_ne_of_single (n : ℕ) (squid_ids : List ℕ) (bolo_ids : List ℤ)
    (cross_amp : List ℚ) (radius beta : ℕ) (i : ℕ)
    (hsing : (List.range n).filter (fun j => squid_ids.getD j 0 = squid_ids.getD i 0) = [i])
    (u : ℕ × ℕ × ℚ)
    (hu : u ∈ intraUpds (combsBuild n squid_ids bolo_ids) cross_amp radius beta) :
    u.1 ≠ i := by
  obtain ⟨g, hg, chi, hchi, chi2, hchi2, he1, _, hsep⟩ := intraUpds_mem _ _ _ _ _ hu
  intro hui
  have hi : chi.2 = i := by rw [← he1, hui]
  have hent := combsBuild_entry n squid_ids bolo_ids g hg chi hchi
  have hkey : g.1 = squid_ids.getD i 0 := by rw [← hent.2.1, hi]
  have hgrp : g.2 = [(bolo_ids.getD i 0, i)] := by
    rw [combsBuild_group n squid_ids bolo_ids g hg, hkey]
    unfold groupFor
    rw [hsing, List.map_cons, List.map_nil]
  have hchi' : chi = (bolo_ids.getD i 0, i) := by
    have := hchi
    rw [hgrp] at this
    simpa using this
  have hchi2' : chi2 = (bolo_ids.getD i 0, i) := by
    have := hchi2
    rw [hgrp] at this
    simpa using this
  rw [hchi', hchi2'] at hsep
  simp at hsep

/-! ### Claims -/

/-- C1 counterexample: with two bolometers on one SQUID (channels 0 and 1),
unit timestreams, unit amplitudes, `radius = 1`, `beta = 2`, the intra-SQUID
injection yields `[[2], [3]]` — the second update reads the already
modified first timestream — while the pre-mutation-snapshot semantics of
the claim yields `[[2], [2]]`. The couplings therefore cascade and are not
computed from a snapshot taken before any mutation. -/
theorem c1_counterexample :
    inject_crosstalk_inside_SQUID [[1], [1]] [0, 0] [0, 1] [1, 1] 1 2
      ≠ snapshot_inside_SQUID [[1], [1]] [0, 0] [0, 1] [1, 1] 1 2 := by
  have hupds : intraUpds (combsBuild ([[1], [1]] : List (List ℚ)).length [0, 0] [0, 1])
      [1, 1] 1 2 = [(0, 1, 1), (1, 0, 1)] := by
    norm_num [intraUpds, combsBuild, addToComb, pairUpd, List.range_succ,
      List.filterMap_cons, List.getD]
    rfl
  have h1 : inject_crosstalk_inside_SQUID [[1], [1]] [0, 0] [0, 1] [1, 1] 1 2
      = [[2], [3]] := by
    rw [inject_intra_eq_foldl, hupds]
    norm_num [applyUpd, addScaled, List.zipWith, List.getD, List.set]
  have h2 : snapshot_inside_SQUID [[1], [1]] [0, 0] [0, 1] [1, 1] 1 2
      = [[2], [2]] := by
    rw [snapshot_inside_SQUID, hupds]
    norm_num [applySnapUpd, addScaled, List.zipWith, List.getD, List.set]
  rw [h1, h2]
  intro h
  have := congrArg (fun l => (l.getD 1 []).getD 0 0) h
  norm_num at this

/-- C1 amended: for every input and every detector index, the output of
both crosstalk injections equals the sequential cascade semantics of their
update sequence — each update `ts[i] += w * ts[i2]` reads the *current*
working timestreams in iteration order, so contributions from
already-modified neighbours cascade instead of being taken from the
pre-mutation snapshot. -/
theorem c1_cascade (bolo_data : List (List ℚ)) (squid_ids : List ℕ)
    (bolo_ids : List ℤ) (cross_amp : List ℚ) (radius beta : ℕ)
    (squid_attenuation : ℚ) (i : ℕ) :
    (inject_crosstalk_inside_SQUID bolo_data squid_ids bolo_ids cross_amp
        radius beta).getD i []
      = cascadeOut bolo_data
          (intraUpds (combsBuild bolo_data.length squid_ids bolo_ids) cross_amp radius beta) i
  ∧ (inject_crosstalk_SQUID_to_SQUID bolo_data squid_ids bolo_ids cross_amp
        squid_attenuation).getD i []
      = cascadeOut bolo_data
          (interUpds (combsBuild bolo_data.length squid_ids bolo_ids) cross_amp
            squid_attenuation) i := by
  constructor
  · rw [inject_intra_eq_foldl]
    exact foldl_applyUpd_getD _ _
      (fun u hu => intraUpds_target_lt _ _ _ _ _ _ u hu) i
  · rw [inject_inter_eq_foldl]
    exact foldl_applyUpd_getD _ _
      (fun u hu => interUpds_target_lt _ _ _ _ _ u hu) i

/-- C8: when every bolometer carries the same SQUID id, the SQUID-to-SQUID
crosstalk injection is a no-op: the inter-SQUID model strictly excludes
pairs inside one SQUID, and with a single SQUID no coupling pair exists. -/
theorem c8_single_squid_noop (bolo_data : List (List ℚ)) (squid_ids : List ℕ)
    (bolo_ids : List ℤ) (cross_amp : List ℚ) (squid_attenuation : ℚ) (sq0 : ℕ)
    (h : ∀ b < bolo_data.length, squid_ids.getD b 0 = sq0) :
    inject_crosstalk_SQUID_to_SQUID bolo_data squid_ids bolo_ids cross_amp
      squid_attenuation = bolo_data := by
  rw [inject_inter_eq_foldl]
  have hcombs := combsBuild_eq squid_ids bolo_ids bolo_data.length
  rcases keysUpto_const squid_ids sq0 bolo_data.length h with hk | hk <;>
    rw [hk] at hcombs <;> rw [hcombs]
  · rfl
  · have hm : (List.map (fun s => (s, groupFor bolo_data.length squid_ids bolo_ids s)) [sq0])
        = [(sq0, groupFor bolo_data.length squid_ids bolo_ids sq0)] := by simp
    rw [hm, interUpds_single]
    rfl

/-- C8 witness: two identical-SQUID bolometers with nontrivial amplitudes
are left unchanged by the inter-SQUID model. -/
theorem c8_single_squid_noop_witness :
    inject_crosstalk_SQUID_to_SQUID [[1], [2]] [5, 5] [0, 1] [7, 9] 3 = [[1], [2]] :=
  c8_single_squid_noop [[1], [2]] [5, 5] [0, 1] [7, 9] 3 5 (by decide)

/-- C9: for every input, intra-SQUID crosstalk with `radius = 0` never
satisfies the separation guard and leaves every timestream unchanged; and
whenever a detector is alone in its SQUID it is never the target of an
update, so its timestream is unchanged for every radius. -/
theorem c9_intra_noop (bolo_data : List (List ℚ)) (squid_ids : List ℕ)
    (bolo_ids : List ℤ) (cross_amp : List ℚ) (radius beta : ℕ) (i : ℕ) :
    inject_crosstalk_inside_SQUID bolo_data squid_ids bolo_ids cross_amp 0 beta
        = bolo_data
  ∧ ((List.range bolo_data.length).filter
        (fun j => squid_ids.getD j 0 = squid_ids.getD i 0) = [i] →
      (inject_crosstalk_inside_SQUID bolo_data squid_ids bolo_ids cross_amp
        radius beta).getD i [] = bolo_data.getD i []) := by
  constructor
  · rw [inject_intra_eq_foldl, intraUpds_radius_zero]
    rfl
  · intro hsing
    rw [inject_intra_eq_foldl,
      foldl_applyUpd_getD _ _ (fun u hu => intraUpds_target_lt _ _ _ _ _ _ u hu) i,
      foldl_stepFun_of_ne _ _ _
        (fun u hu => intraUpds_target_ne_of_single _ _ _ _ _ _ i hsing u hu)]

/-- C9 witness: two singleton SQUIDs; the first detector's stream survives
an injection with positive radius, and radius 0 is a global no-op. -/
theorem c9_intra_noop_witness :
    inject_crosstalk_inside_SQUID [[5], [6]] [0, 1] [0, 0] [2, 3] 0 2 = [[5], [6]]
  ∧ (inject_crosstalk_inside_SQUID [[5], [6]] [0, 1] [0, 0] [2, 3] 1 2).getD 0 []
      = ([[5], [6]] : List (List ℚ)).getD 0 [] :=
  ⟨(c9_intra_noop [[5], [6]] [0, 1] [0, 0] [2, 3] 1 2 0).1,
   (c9_intra_noop [[5], [6]] [0, 1] [0, 0] [2, 3] 1 2 0).2 (by decide)⟩

/-- C5: summing the spin-selected kernels for spins 0, 1 and 2 reproduces
the original kernel exactly, and selecting all three spins at once is the
identity. -/
theorem c5_spin_additivity (K : Kernel) :
    fixspin K ['0'] + fixspin K ['1'] + fixspin K ['2'] = K
  ∧ fixspin K ['0', '1', '2'] = K := by
  constructor <;> ext <;>
    simp [fixspin, kadd_def, kadd, List.contains] <;> ring

/-- C6: rotating a kernel by the angle 0 (cosine 1, sine 0) returns it
unchanged, and rotating by an angle and then by its negation (same cosine,
negated sine) returns the original kernel. -/
theorem c6_rotation_roundtrip (K : Kernel) (c s : ℚ) (h : c ^ 2 + s ^ 2 = 1) :
    rotate_deriv K 1 0 = K
  ∧ rotate_deriv (rotate_deriv K c s) c (-s) = K := by
  constructor
  · ext <;> simp [rotate_deriv]
  · ext <;> simp only [rotate_deriv]
    · linear_combination K.d10 * h
    · linear_combination K.d01 * h
    · linear_combination ((c ^ 2 + s ^ 2 + 1) * K.d11) * h
    · linear_combination ((c ^ 2 + s ^ 2 + 1) * K.d20) * h
    · linear_combination ((c ^ 2 + s ^ 2 + 1) * K.d02) * h

/-- C6 witness: the round trip at the concrete kernel `(1,2,3,4,5,6)` and
the concrete angle with cosine `3/5` and sine `4/5`. -/
theorem c6_rotation_roundtrip_witness :
    rotate_deriv ⟨1, 2, 3, 4, 5, 6⟩ 1 0 = (⟨1, 2, 3, 4, 5, 6⟩ : Kernel)
  ∧ rotate_deriv (rotate_deriv ⟨1, 2, 3, 4, 5, 6⟩ (3 / 5) (4 / 5)) (3 / 5) (-(4 / 5))
      = (⟨1, 2, 3, 4, 5, 6⟩ : Kernel) :=
  c6_rotation_roundtrip ⟨1, 2, 3, 4, 5, 6⟩ (3 / 5) (4 / 5) (by norm_num)

/-- C7: both crosstalk models draw the cross-amplitude vector by the same
expression `normal(seed, mu/100, sigma/100, N)`, so for equal seed and
parameters the two draws coincide; and in this pure embedding each seeded
injection is a function of its arguments, so repeated calls with the same
layout, parameters and seed return identical timestreams. -/
theorem c7_determinism (normalFn : ℕ → ℚ → ℚ → ℕ → List ℚ) (seed n : ℕ)
    (mu sigma : ℚ) (bolo_data : List (List ℚ)) (squid_ids : List ℕ)
    (bolo_ids : List ℤ) (radius beta : ℕ) (squid_attenuation : ℚ) :
    crossAmpInsideSQUID normalFn seed mu sigma n
        = crossAmpSQUIDtoSQUID normalFn seed mu sigma n
  ∧ inject_crosstalk_inside_SQUID_seeded normalFn bolo_data squid_ids bolo_ids
        mu sigma radius beta seed
      = inject_crosstalk_inside_SQUID_seeded normalFn bolo_data squid_ids bolo_ids
        mu sigma radius beta seed
  ∧ inject_crosstalk_SQUID_to_SQUID_seeded normalFn bolo_data squid_ids bolo_ids
        mu sigma squid_attenuation seed
      = inject_crosstalk_SQUID_to_SQUID_seeded normalFn bolo_data squid_ids bolo_ids
        mu sigma squid_attenuation seed :=
  ⟨rfl, rfl, rfl⟩

/-- C3 counterexample: with one timestream but two SQUID ids and three
channel ids (all three lengths pairwise different), the intra-SQUID
crosstalk injection does not fail: it runs to completion and returns the
timestreams, so a length mismatch is not rejected by any precondition
check. -/
theorem c3_counterexample :
    inject_crosstalk_inside_SQUID_run [[1]] [0, 0] [0, 0, 0] [1] 1 2 = some [[1]]
  ∧ ([0, 0] : List ℕ).length ≠ ([[(1 : ℚ)]] : List (List ℚ)).length
  ∧ ([0, 0, 0] : List ℤ).length ≠ ([[(1 : ℚ)]] : List (List ℚ)).length
  ∧ ([0, 0] : List ℕ).length ≠ ([0, 0, 0] : List ℤ).length := by
  refine ⟨?_, by decide, by decide, by decide⟩
  rfl

/-- C3 amended: the leakage projector `diffbeam_map2tod` does fail fast
with a precondition violation (a failed `assert`) when the pointing matrix
shape differs from the output-buffer shape, before any computation; the
crosstalk operations perform no length validation — an id list shorter
than the timestream array aborts with an `IndexError` during grouping
(before any buffer is mutated), while longer id lists are silently
accepted. -/
theorem c3_failfast (out : List (List ℚ)) (ints : Fin 6 → List ℚ)
    (point_matrix : List (List ℤ)) (beam_orientation : List (List (ℚ × ℚ)))
    (diffbeam_kernels : List Kernel) (bolo_data : List (List ℚ))
    (squid_ids : List ℕ) (bolo_ids : List ℤ) (cross_amp : List ℚ)
    (radius beta : ℕ)
    (h1 : point_matrix.map List.length ≠ out.map List.length)
    (h2 : squid_ids.length < bolo_data.length) :
    diffbeam_map2tod out ints point_matrix beam_orientation diffbeam_kernels = none
  ∧ inject_crosstalk_inside_SQUID_run bolo_data squid_ids bolo_ids cross_amp
      radius beta = none := by
  constructor
  · unfold diffbeam_map2tod
    rw [if_neg (fun hc => h1 hc.1)]
  · unfold inject_crosstalk_inside_SQUID_run
    rw [if_neg (fun hc => absurd hc.1 (by omega))]

/-- C3 amended witness: an empty pointing matrix against a one-row output
buffer, and empty id lists against a one-row timestream array. -/
theorem c3_failfast_witness :
    diffbeam_map2tod [[0]] (fun _ => []) [] [] [] = none
  ∧ inject_crosstalk_inside_SQUID_run [[1]] [] [] [] 1 2 = none :=
  c3_failfast [[0]] (fun _ => []) [] [] [] [[1]] [] [] [] 1 2
    (by decide) (by decide)

/-! ### Least-squares facts for the kernel fitter -/

theorem residSq_nonneg (A : List Kernel) (b : List ℚ) (x : Kernel) :
    0 ≤ residSq A b x := by
  unfold residSq
  refine List.sum_nonneg (fun v hv => ?_)
  obtain ⟨rb, _, he⟩ := List.mem_map.mp hv
  rw [← he]
  positivity

theorem kdot_kzero (a : Kernel) : kdot a kzero = 0 := by
  unfold kdot kzero
  ring

theorem residSq_kzero_of_zeros (A : List Kernel) (b : List ℚ)
    (hb : ∀ y ∈ b, y = 0) : residSq A b kzero = 0 := by
  unfold residSq
  refine List.sum_eq_zero (fun v hv => ?_)
  obtain ⟨rb, hrb, he⟩ := List.mem_map.mp hv
  rw [← he, kdot_kzero, hb rb.2 (List.of_mem_zip hrb).2]
  ring

theorem knormSq_nonneg (x : Kernel) : 0 ≤ knormSq x := by
  unfold knormSq kdot
  nlinarith [mul_self_nonneg x.d00, mul_self_nonneg x.d10, mul_self_nonneg x.d01,
    mul_self_nonneg x.d11, mul_self_nonneg x.d20, mul_self_nonneg x.d02]

theorem knormSq_kzero : knormSq kzero = 0 := by
  unfold knormSq kdot kzero
  ring

theorem eq_kzero_of_knormSq_nonpos (x : Kernel) (h : knormSq x ≤ 0) : x = kzero := by
  unfold knormSq kdot at h
  have h00 : x.d00 = 0 := by
    nlinarith [mul_self_nonneg x.d00, mul_self_nonneg x.d10, mul_self_nonneg x.d01,
      mul_self_nonneg x.d11, mul_self_nonneg x.d20, mul_self_nonneg x.d02]
  have h10 : x.d10 = 0 := by
    nlinarith [mul_self_nonneg x.d00, mul_self_nonneg x.d10, mul_self_nonneg x.d01,
      mul_self_nonneg x.d11, mul_self_nonneg x.d20, mul_self_nonneg x.d02]
  have h01 : x.d01 = 0 := by
    nlinarith [mul_self_nonneg x.d00, mul_self_nonneg x.d10, mul_self_nonneg x.d01,
      mul_self_nonneg x.d11, mul_self_nonneg x.d20, mul_self_nonneg x.d02]
  have h11 : x.d11 = 0 := by
    nlinarith [mul_self_nonneg x.d00, mul_self_nonneg x.d10, mul_self_nonneg x.d01,
      mul_self_nonneg x.d11, mul_self_nonneg x.d20, mul_self_nonneg x.d02]
  have h20 : x.d20 = 0 := by
    nlinarith [mul_self_nonneg x.d00, mul_self_nonneg x.d10, mul_self_nonneg x.d01,
      mul_self_nonneg x.d11, mul_self_nonneg x.d20, mul_self_nonneg x.d02]
  have h02 : x.d02 = 0 := by
    nlinarith [mul_self_nonneg x.d00, mul_self_nonneg x.d10, mul_self_nonneg x.d01,
      mul_self_nonneg x.d11, mul_self_nonneg x.d20, mul_self_nonneg x.d02]
  ext <;> simp [kzero, h00, h10, h01, h11, h20, h02]

/-- C2 amended: when the difference-beam map is identically zero (the
perfectly matched pair), every kernel that `split_deriv`'s least-squares
solver can return is the all-zero 6-coefficient kernel. -/
theorem c2_zero_diffbeam (sumbeam diffbeam : List (List ℚ)) (pix_size : ℚ)
    (x : Kernel) (hz : ∀ row ∈ diffbeam, ∀ v ∈ row, v = 0)
    (hx : SplitDerivReturns sumbeam diffbeam pix_size x) : x = kzero := by
  have hb : ∀ y ∈ targetVec diffbeam, y = 0 := by
    intro y hy
    unfold targetVec at hy
    obtain ⟨row, hrow, hv⟩ := List.mem_flatten.mp hy
    exact hz row hrow y hv
  have hmin : IsMinimizer (designMatrix sumbeam pix_size) (targetVec diffbeam) kzero := by
    intro y
    rw [residSq_kzero_of_zeros _ _ hb]
    exact residSq_nonneg _ _ y
  refine eq_kzero_of_knormSq_nonpos x ?_
  rw [← knormSq_kzero]
  exact hx.2 kzero hmin

/-- C2 amended witness: at the concrete sum beam `[[1]]`, zero difference
beam and the zero kernel candidate. -/
theorem c2_zero_diffbeam_witness :
    (∀ row ∈ ([[(0 : ℚ)]] : List (List ℚ)), ∀ v ∈ row, v = 0) ∧ (kzero : Kernel) = kzero := by
  have hz : ∀ row ∈ ([[(0 : ℚ)]] : List (List ℚ)), ∀ v ∈ row, v = 0 := by
    intro row hrow v hv
    rcases List.mem_singleton.mp hrow with h0
    rw [h0] at hv
    exact List.mem_singleton.mp hv
  have hb : ∀ y ∈ targetVec [[(0 : ℚ)]], y = 0 := by
    intro y hy
    unfold targetVec at hy
    obtain ⟨row, hrow, hv⟩ := List.mem_flatten.mp hy
    exact hz row hrow y hv
  refine ⟨hz, c2_zero_diffbeam [[1]] [[0]] 1 kzero hz ⟨fun y => ?_, fun y _ => ?_⟩⟩
  · rw [residSq_kzero_of_zeros _ _ hb]
    exact residSq_nonneg _ _ y
  · rw [knormSq_kzero]
    exact knormSq_nonneg y

/-- C2 counterexample: for the pair of identical nonzero beam maps
`sumbeam = diffbeam = [[1]]`, the least-squares return of `split_deriv` is
the kernel `(1, 0, 0, 0, 0, 0)` — the target vector is exactly the first
design column — and the all-zero kernel is *not* a possible return, so
"sum = diff implies an all-zero kernel" fails. -/
theorem c2_counterexample :
    SplitDerivReturns [[1]] [[1]] 1 ⟨1, 0, 0, 0, 0, 0⟩
  ∧ (⟨1, 0, 0, 0, 0, 0⟩ : Kernel) ≠ kzero
  ∧ ¬ SplitDerivReturns [[1]] [[1]] 1 kzero := by
  have hA : designMatrix [[1]] 1 = [⟨1, 0, 0, 0, 0, 0⟩] := by
    norm_num [designMatrix, xderiv, yderiv, valAt, ncols, List.range_succ]
  have htv : targetVec [[(1 : ℚ)]] = [1] := rfl
  have hres : ∀ x : Kernel,
      residSq (designMatrix [[1]] 1) (targetVec [[1]]) x = (x.d00 - 1) ^ 2 := by
    intro x
    rw [hA, htv]
    simp [residSq, kdot]
  refine ⟨⟨fun y => ?_, fun y hy => ?_⟩, fun h => ?_, fun hzero => ?_⟩
  · rw [hres, hres]
    have h0 : (((⟨1, 0, 0, 0, 0, 0⟩ : Kernel).d00 - 1) ^ 2 : ℚ) = 0 := by norm_num
    rw [h0]
    positivity
  · have h1 := hy ⟨1, 0, 0, 0, 0, 0⟩
    rw [hres, hres] at h1
    norm_num at h1
    have hy00 : y.d00 = 1 := by nlinarith [sq_nonneg (y.d00 - 1)]
    unfold knormSq kdot
    rw [hy00]
    norm_num
    nlinarith [mul_self_nonneg y.d10, mul_self_nonneg y.d01, mul_self_nonneg y.d11,
      mul_self_nonneg y.d20, mul_self_nonneg y.d02]
  · have := congrArg Kernel.d00 h
    norm_num [kzero] at this
  · have h1 := hzero.1 ⟨1, 0, 0, 0, 0, 0⟩
    rw [hres, hres] at h1
    norm_num [kzero] at h1

/-! ### Row lemmas for the leakage projector -/

theorem scanRow_length (ints : Fin 6 → List ℚ) (K : Kernel) :
    ∀ (o : List ℚ) (p : List ℤ) (a : List (ℚ × ℚ)),
      (scanRow ints K o p a).length = o.length := by
  intro o
  induction o with
  | nil => intro p a; cases p <;> cases a <;> rfl
  | cons x os ih =>
    intro p a
    cases p with
    | nil => rfl
    | cons pp ps =>
      cases a with
      | nil => rfl
      | cons aa angs => simp [scanRow, ih]

theorem scanRow_getD (ints : Fin 6 → List ℚ) (K : Kernel) :
    ∀ (o : List ℚ) (p : List ℤ) (a : List (ℚ × ℚ)) (t : ℕ),
      p.length = o.length → a.length = o.length → t < o.length →
      (scanRow ints K o p a).getD t 0 =
        if p.getD t 0 = -1 then o.getD t 0
        else o.getD t 0
          + kdot (rotate_deriv K (a.getD t (1, 0)).1 (-(a.getD t (1, 0)).2))
              (stackAt ints (p.getD t 0)) := by
  intro o
  induction o with
  | nil => intro p a t _ _ ht; simp at ht
  | cons x os ih =>
    intro p a t hp ha ht
    cases p with
    | nil => simp at hp
    | cons pp ps =>
      cases a with
      | nil => simp at ha
      | cons aa angs =>
        cases t with
        | zero => simp [scanRow]
        | succ t' =>
          have hp' : ps.length = os.length := by simpa using hp
          have ha' : angs.length = os.length := by simpa using ha
          have ht' : t' < os.length := by simpa using ht
          simpa [scanRow] using ih ps angs t' hp' ha' ht'

theorem scanRows_length (ints : Fin 6 → List ℚ) :
    ∀ (o : List (List ℚ)) (p : List (List ℤ)) (a : List (List (ℚ × ℚ)))
      (ks : List Kernel), (scanRows ints o p a ks).length = o.length := by
  intro o
  induction o with
  | nil => intro p a ks; cases p <;> cases a <;> cases ks <;> rfl
  | cons x os ih =>
    intro p a ks
    cases p with
    | nil => rfl
    | cons pp ps =>
      cases a with
      | nil => rfl
      | cons aa angs =>
        cases ks with
        | nil => rfl
        | cons kk kks => simp [scanRows, ih]

theorem scanRows_row_length (ints : Fin 6 → List ℚ) :
    ∀ (o : List (List ℚ)) (p : List (List ℤ)) (a : List (List (ℚ × ℚ)))
      (ks : List Kernel) (r : ℕ),
      ((scanRows ints o p a ks).getD r []).length = (o.getD r []).length := by
  intro o
  induction o with
  | nil => intro p a ks r; cases p <;> cases a <;> cases ks <;> rfl
  | cons x os ih =>
    intro p a ks r
    cases p with
    | nil => rfl
    | cons pp ps =>
      cases a with
      | nil => rfl
      | cons aa angs =>
        cases ks with
        | nil => rfl
        | cons kk kks =>
          cases r with
          | zero => simp [scanRows, scanRow_length]
          | succ r' => simpa [scanRows] using ih ps angs kks r'

theorem scanRows_getD (ints : Fin 6 → List ℚ) :
    ∀ (o : List (List ℚ)) (p : List (List ℤ)) (a : List (List (ℚ × ℚ)))
      (ks : List Kernel) (r : ℕ),
      p.length = o.length → a.length = o.length → ks.length = o.length →
      r < o.length →
      (scanRows ints o p a ks).getD r []
        = scanRow ints (ks.getD r kzero) (o.getD r []) (p.getD r []) (a.getD r []) := by
  intro o
  induction o with
  | nil => intro p a ks r _ _ _ hr; simp at hr
  | cons x os ih =>
    intro p a ks r hp ha hk hr
    cases p with
    | nil => simp at hp
    | cons pp ps =>
      cases a with
      | nil => simp at ha
      | cons aa angs =>
        cases ks with
        | nil => simp at hk
        | cons kk kks =>
          cases r with
          | zero => simp [scanRows]
          | succ r' =>
            have hp' : ps.length = os.length := by simpa using hp
            have ha' : angs.length = os.length := by simpa using ha
            have hk' : kks.length = os.length := by simpa using hk
            have hr' : r' < os.length := by simpa using hr
            simpa [scanRows] using ih ps angs kks r' hp' ha' hk' hr'

theorem map_length_getD {α β : Type} :
    ∀ (a : List (List α)) (b : List (List β)),
      a.map List.length = b.map List.length →
      ∀ r, (a.getD r []).length = (b.getD r []).length := by
  intro a
  induction a with
  | nil =>
    intro b hb r
    cases b with
    | nil => rfl
    | cons y ys => simp at hb
  | cons x xs ih =>
    intro b hb r
    cases b with
    | nil => simp at hb
    | cons y ys =>
      rw [List.map_cons, List.map_cons] at hb
      have h1 : x.length = y.length := (List.cons.injEq _ _ _ _ ▸ hb).1
      have h2 : xs.map List.length = ys.map List.length := (List.cons.injEq _ _ _ _ ▸ hb).2
      cases r with
      | zero => simpa using h1
      | succ r' => simpa using ih ys h2 r'

theorem map_length_len {α β : Type} (a : List (List α)) (b : List (List β))
    (h : a.map List.length = b.map List.length) : a.length = b.length := by
  have := congrArg List.length h
  simpa using this

/-- C4: whenever the leakage projector succeeds, each output sample with
the sentinel pixel index `-1` is left untouched, and each output sample
with a valid pixel index receives exactly the dot product of the kernel
rotated by the negated orientation angle with the six intensity-derivative
values at that pixel. -/
theorem c4_leakage_projector (out : List (List ℚ)) (ints : Fin 6 → List ℚ)
    (point_matrix : List (List ℤ)) (beam_orientation : List (List (ℚ × ℚ)))
    (diffbeam_kernels : List Kernel) (res : List (List ℚ))
    (hres : diffbeam_map2tod out ints point_matrix beam_orientation diffbeam_kernels
      = some res)
    (r t : ℕ) (hr : r < out.length) (ht : t < (out.getD r []).length) :
    ((point_matrix.getD r []).getD t 0 = -1 →
      (res.getD r []).getD t 0 = (out.getD r []).getD t 0)
  ∧ ((point_matrix.getD r []).getD t 0 ≠ -1 →
      (res.getD r []).getD t 0 = (out.getD r []).getD t 0
        + kdot (rotate_deriv (diffbeam_kernels.getD r kzero)
              ((beam_orientation.getD r []).getD t (1, 0)).1
              (-((beam_orientation.getD r []).getD t (1, 0)).2))
            (stackAt ints ((point_matrix.getD r []).getD t 0))) := by
  unfold diffbeam_map2tod at hres
  by_cases hc : point_matrix.map List.length = out.map List.length ∧
      diffbeam_kernels.length = out.length ∧
      beam_orientation.map List.length = out.map List.length
  · rw [if_pos hc] at hres
    have hresv : res = scanRows ints out point_matrix beam_orientation diffbeam_kernels :=
      (Option.some_inj.mp hres).symm
    have hrow := scanRows_getD ints out point_matrix beam_orientation diffbeam_kernels r
      (map_length_len _ _ hc.1) (map_length_len _ _ hc.2.2) hc.2.1 hr
    have hsample := scanRow_getD ints (diffbeam_kernels.getD r kzero)
      (out.getD r []) (point_matrix.getD r []) (beam_orientation.getD r []) t
      (map_length_getD _ _ hc.1 r) (map_length_getD _ _ hc.2.2 r) ht
    rw [hresv, hrow, hsample]
    constructor
    · intro hsent
      rw [if_pos hsent]
    · intro hsent
      rw [if_neg hsent]
  · rw [if_neg hc] at hres
    exact absurd hres (Option.noConfusion)

/-- C4 witness: a single pair with two samples, the first with the sentinel
pixel index (untouched) and the second with pixel 0 (receives the rotated
kernel dotted into the derivative stack: value 1). -/
theorem c4_leakage_projector_witness :
    ((([[-1, 0]] : List (List ℤ)).getD 0 []).getD 0 0 = -1 →
      (([[0, 1]] : List (List ℚ)).getD 0 []).getD 0 0
        = (([[0, 0]] : List (List ℚ)).getD 0 []).getD 0 0)
  ∧ ((([[-1, 0]] : List (List ℤ)).getD 0 []).getD 0 0 ≠ -1 →
      (([[0, 1]] : List (List ℚ)).getD 0 []).getD 0 0
        = (([[0, 0]] : List (List ℚ)).getD 0 []).getD 0 0
        + kdot (rotate_deriv (([⟨1, 0, 0, 0, 0, 0⟩] : List Kernel).getD 0 kzero)
              ((([[((1 : ℚ), (0 : ℚ)), (1, 0)]] : List (List (ℚ × ℚ))).getD 0 []).getD 0 (1, 0)).1
              (-((([[((1 : ℚ), (0 : ℚ)), (1, 0)]] : List (List (ℚ × ℚ))).getD 0 []).getD 0 (1, 0)).2))
            (stackAt (fun kk => [((kk : ℕ) : ℚ) + 1])
              ((([[-1, 0]] : List (List ℤ)).getD 0 []).getD 0 0))) := by
  have hres : diffbeam_map2tod [[0, 0]] (fun kk => [((kk : ℕ) : ℚ) + 1])
      [[-1, 0]] [[((1 : ℚ), (0 : ℚ)), (1, 0)]] [⟨1, 0, 0, 0, 0, 0⟩] = some [[0, 1]] := by
    unfold diffbeam_map2tod
    rw [if_pos (by norm_num)]
    norm_num [scanRows, scanRow, kdot, rotate_deriv, stackAt, Fin.isValue]
  exact c4_leakage_projector [[0, 0]] (fun kk => [((kk : ℕ) : ℚ) + 1])
    [[-1, 0]] [[((1 : ℚ), (0 : ℚ)), (1, 0)]] [⟨1, 0, 0, 0, 0, 0⟩] [[0, 1]] hres 0 0
    (by norm_num) (by norm_num)

/-! ### Pair-sum preservation of `waferts_add_diffbeam` -/

theorem getD_replicate (n : ℕ) (x : List ℚ) (k : ℕ) (h : k < n) :
    (List.replicate n x).getD k [] = x := by
  rw [List.getD_eq_getElem _ _ (by simpa using h)]
  simp

theorem addScaled_getD :
    ∀ (a b : List ℚ) (w : ℚ) (t : ℕ), b.length = a.length →
      (addScaled a w b).getD t 0 = a.getD t 0 + w * b.getD t 0 := by
  intro a
  induction a with
  | nil =>
    intro b w t hb
    rw [List.length_nil, List.length_eq_zero] at hb
    subst hb
    simp [addScaled]
  | cons x xs ih =>
    intro b w t hb
    cases b with
    | nil => simp at hb
    | cons y ys =>
      cases t with
      | zero => simp [addScaled]
      | succ t' =>
        have hb' : ys.length = xs.length := by simpa using hb
        simpa [addScaled] using ih ys w t' hb'

theorem interleave_pairsum :
    ∀ (ws ls : List (List ℚ)) (k t : ℕ),
      (ls.getD k []).length = (ws.getD (2 * k) []).length →
      (ls.getD k []).length = (ws.getD (2 * k + 1) []).length →
      ((interleaveAddSub ws ls).getD (2 * k) []).getD t 0
          + ((interleaveAddSub ws ls).getD (2 * k + 1) []).getD t 0
        = (ws.getD (2 * k) []).getD t 0 + (ws.getD (2 * k + 1) []).getD t 0 := by
  intro ws ls
  induction ws, ls using interleaveAddSub.induct with
  | case1 a b rest l ls ih =>
    intro k t h1 h2
    cases k with
    | zero =>
      simp only [Nat.mul_zero, Nat.zero_add] at h1 h2 ⊢
      show ((interleaveAddSub (a :: b :: rest) (l :: ls)).getD 0 []).getD t 0
          + ((interleaveAddSub (a :: b :: rest) (l :: ls)).getD 1 []).getD t 0 = _
      unfold interleaveAddSub
      simp only [List.getD_cons_zero, List.getD_cons_succ]
      rw [addScaled_getD a l 1 t (by simpa using h1),
        addScaled_getD b l (-1) t (by simpa using h2)]
      ring
    | succ k' =>
      have e1 : 2 * (k' + 1) = 2 * k' + 1 + 1 := by ring
      rw [e1] at h1 h2 ⊢
      unfold interleaveAddSub
      simp only [List.getD_cons_succ] at h1 h2 ⊢
      exact ih k' t h1 h2
  | case2 ws ls hne =>
    intro k t h1 h2
    -- no update happens: the fallback returns `ws` unchanged
    have : interleaveAddSub ws ls = ws := by
      unfold interleaveAddSub
      cases ws with
      | nil => rfl
      | cons a tail =>
        cases tail with
        | nil => rfl
        | cons b rest =>
          cases ls with
          | nil => rfl
          | cons l ls' => exact ((hne a b rest l ls') rfl rfl).elim
    rw [this]


/-- C10: whenever `waferts_add_diffbeam` succeeds on a rectangular
timestream array, the per-pair sum `waferts[2k][t] + waferts[2k+1][t]` is
unchanged: the same leakage row is added to the even member and subtracted
from the odd member, so the injected differential-beam leakage lives only
in the pair difference. -/
theorem c10_pairsum_preserved (waferts : List (List ℚ))
    (point_matrix : List (List ℤ)) (beam_orientation : List (List (ℚ × ℚ)))
    (ints : Fin 6 → List ℚ) (diffbeam_kernels : List Kernel) (spins : List Char)
    (w' : List (List ℚ)) (k t : ℕ)
    (hres : waferts_add_diffbeam waferts point_matrix beam_orientation ints
      diffbeam_kernels spins = some w')
    (hk : 2 * k + 1 < waferts.length)
    (hw : ∀ row ∈ waferts, row.length = (waferts.getD 0 []).length) :
    (w'.getD (2 * k) []).getD t 0 + (w'.getD (2 * k + 1) []).getD t 0
      = (waferts.getD (2 * k) []).getD t 0 + (waferts.getD (2 * k + 1) []).getD t 0 := by
  simp only [waferts_add_diffbeam] at hres
  cases hd : diffbeam_map2tod
      (List.replicate (waferts.length / 2)
        (List.replicate (waferts.getD 0 []).length (0 : ℚ)))
      ints point_matrix beam_orientation
      (diffbeam_kernels.map (fun kk =>
        fixspin ⟨0, -kk.d10, kk.d01, -kk.d11, kk.d20, kk.d02⟩ spins)) with
  | none => rw [hd] at hres; exact absurd hres (Option.noConfusion)
  | some leak =>
    rw [hd, Option.some_bind] at hres
    by_cases hdvd : 2 ∣ waferts.length
    · rw [if_pos hdvd] at hres
      have hw' : w' = interleaveAddSub waferts leak := (Option.some_inj.mp hres).symm
      have hkpair : k < waferts.length / 2 := by omega
      have hleakrow : (leak.getD k []).length = (waferts.getD 0 []).length := by
        unfold diffbeam_map2tod at hd
        by_cases hc : point_matrix.map List.length
              = (List.replicate (waferts.length / 2)
                  (List.replicate (waferts.getD 0 []).length (0 : ℚ))).map List.length ∧
            (diffbeam_kernels.map (fun kk =>
              fixspin ⟨0, -kk.d10, kk.d01, -kk.d11, kk.d20, kk.d02⟩ spins)).length
              = (List.replicate (waferts.length / 2)
                  (List.replicate (waferts.getD 0 []).length (0 : ℚ))).length ∧
            beam_orientation.map List.length
              = (List.replicate (waferts.length / 2)
                  (List.replicate (waferts.getD 0 []).length (0 : ℚ))).map List.length
        · rw [if_pos hc] at hd
          have hleak := (Option.some_inj.mp hd).symm
          rw [hleak, scanRows_row_length,
            getD_replicate _ _ _ hkpair, List.length_replicate]
        · rw [if_neg hc] at hd
          exact absurd hd (Option.noConfusion)
      have hrow1 : (waferts.getD (2 * k) []).length = (waferts.getD 0 []).length := by
        refine hw _ ?_
        rw [List.getD_eq_getElem _ _ (by omega)]
        exact List.getElem_mem _
      have hrow2 : (waferts.getD (2 * k + 1) []).length = (waferts.getD 0 []).length := by
        refine hw _ ?_
        rw [List.getD_eq_getElem _ _ (by omega)]
        exact List.getElem_mem _
      rw [hw']
      exact interleave_pairsum waferts leak k t (by rw [hleakrow, hrow1])
        (by rw [hleakrow, hrow2])
    · rw [if_neg hdvd] at hres
      exact absurd hres (Option.noConfusion)

/-- C10 witness: two timestreams of two samples forming one pair; the
injection moves the pair members to `[[2, 2], [2, 4]]` and the pairwise sums
`2 + 2 = 1 + 3` at sample 0 are preserved. -/
theorem c10_pairsum_preserved_witness :
    (([[2, 2], [2, 4]] : List (List ℚ)).getD 0 []).getD 0 0
        + (([[2, 2], [2, 4]] : List (List ℚ)).getD 1 []).getD 0 0
      = (([[1, 2], [3, 4]] : List (List ℚ)).getD 0 []).getD 0 0
        + (([[1, 2], [3, 4]] : List (List ℚ)).getD 1 []).getD 0 0 := by
  have hres : waferts_add_diffbeam [[1, 2], [3, 4]] [[0, -1]] [[((1 : ℚ), (0 : ℚ)), (1, 0)]]
      (fun _ => [1]) [⟨1, 1, 1, 1, 1, 1⟩] ['0', '1', '2'] = some [[2, 2], [2, 4]] := by
    norm_num [waferts_add_diffbeam, diffbeam_map2tod, List.replicate, scanRows, scanRow,
      kdot, rotate_deriv, stackAt, fixspin, List.contains, interleaveAddSub, addScaled]
  have h := c10_pairsum_preserved [[1, 2], [3, 4]] [[0, -1]] [[((1 : ℚ), (0 : ℚ)), (1, 0)]]
    (fun _ => [1]) [⟨1, 1, 1, 1, 1, 1⟩] ['0', '1', '2'] [[2, 2], [2, 4]] 0 0 hres
    (by norm_num) (by norm_num)
  simpa using h

end S4cmb
